import Mathlib

/-!
# HLC timestamps of `c-deps/libroach/timestamp.h`

A shallow embedding of the header `c-deps/libroach/timestamp.h`: the value
type `DBTimestamp`, the sentinel `kZeroTimestamp`, the conversion
`ToDBTimestamp`, the predecessor `PrevTimestamp` and the six comparison
operators, followed by theorems about them.

Machine integers are embedded as `Int` together with an explicit range
predicate (`DBTimestamp.InRange`); the two decrements of `PrevTimestamp` are
followed by an explicit two's-complement reduction to the width of the field.
The branch of `PrevTimestamp` that prints a message and calls `abort()` is
embedded as the result `none`.
-/

namespace cockroach

/-! ## Machine integers -/

/-- Smallest value of `int64_t`. -/
def int64_min : Int := -9223372036854775808

/-- Largest value of `int64_t`. -/
def int64_max : Int := 9223372036854775807

/-- Smallest value of `int32_t`. -/
def int32_min : Int := -2147483648

/-- Largest value of `int32_t`, the value of `std::numeric_limits<int32_t>::max()`. -/
def int32_max : Int := 2147483647

/-- Reduction of an exact integer to the `int64_t` that has the same low 64 bits. -/
def wrapInt64 (x : Int) : Int :=
  (x + 9223372036854775808) % 18446744073709551616 - 9223372036854775808

/-- Reduction of an exact integer to the `int32_t` that has the same low 32 bits. -/
def wrapInt32 (x : Int) : Int :=
  (x + 2147483648) % 4294967296 - 2147483648

/-! ## Data model -/

/-- Modelled from the spec: the declaration of the struct `DBTimestamp` lives in
`libroach.h`, which the header includes; the header itself only reads and writes
its two fields, `wall_time` (a 64-bit signed integer) and `logical` (a 32-bit
signed integer). -/
structure DBTimestamp where
  wall_time : Int
  logical : Int
  deriving DecidableEq, Repr

/-- The values of the fields fit their machine types: `wall_time` is an
`int64_t` and `logical` is an `int32_t`. -/
def DBTimestamp.InRange (ts : DBTimestamp) : Prop :=
  int64_min ≤ ts.wall_time ∧ ts.wall_time ≤ int64_max ∧
    int32_min ≤ ts.logical ∧ ts.logical ≤ int32_max

instance (ts : DBTimestamp) : Decidable ts.InRange := by
  unfold DBTimestamp.InRange
  exact inferInstance

/-- Modelled from the spec: the protobuf message
`cockroach::util::hlc::LegacyTimestamp` is generated code outside the header;
only its accessors `wall_time()` (64-bit signed) and `logical()` (32-bit signed)
are used. -/
structure LegacyTimestamp where
  wall_time : Int
  logical : Int
  deriving DecidableEq, Repr

/-! ## Operations -/

/-- The constant `kZeroTimestamp = {0, 0}`. -/
def kZeroTimestamp : DBTimestamp := { wall_time := 0, logical := 0 }

/-- The function `ToDBTimestamp`: both accessors are copied into a new
`DBTimestamp`. The braces are a list-initialisation, which admits no narrowing
conversion, so each value is kept exactly. -/
def ToDBTimestamp (timestamp : LegacyTimestamp) : DBTimestamp :=
  { wall_time := timestamp.wall_time, logical := timestamp.logical }

/-- The function `PrevTimestamp`. The argument is passed by value and updated
in place; `none` stands for the branch that writes
"no previous time for zero timestamp" to stderr and calls `abort()`.
`--ts.logical` runs only on a positive value and cannot overflow on an
`int32_t`; `--ts.wall_time` overflows only on the smallest `int64_t`, where
the embedding takes the two's-complement result. -/
def PrevTimestamp (ts : DBTimestamp) : Option DBTimestamp :=
  if ts.logical > 0 then
    some { ts with logical := wrapInt32 (ts.logical - 1) }
  else if ts.wall_time == 0 then
    none
  else
    some { wall_time := wrapInt64 (ts.wall_time - 1), logical := int32_max }

/-- The operator `operator==` on `DBTimestamp`. -/
def operator_eq (a b : DBTimestamp) : Bool :=
  a.wall_time == b.wall_time && a.logical == b.logical

/-- The operator `operator!=` on `DBTimestamp`. -/
def operator_ne (a b : DBTimestamp) : Bool :=
  !(operator_eq a b)

/-- The operator `operator<` on `DBTimestamp`. -/
def operator_lt (a b : DBTimestamp) : Bool :=
  decide (a.wall_time < b.wall_time) ||
    (a.wall_time == b.wall_time && decide (a.logical < b.logical))

/-- The operator `operator>` on `DBTimestamp`. -/
def operator_gt (a b : DBTimestamp) : Bool :=
  operator_lt b a

/-- The operator `operator<=` on `DBTimestamp`. -/
def operator_le (a b : DBTimestamp) : Bool :=
  !(operator_lt b a)

/-- The operator `operator>=` on `DBTimestamp`. -/
def operator_ge (a b : DBTimestamp) : Bool :=
  operator_le b a

/-- How a run of `PrevTimestamp` can end without a value when signed overflow is
tracked: `abort` is the branch that calls `abort()`, `overflow` is a decrement
whose exact result does not fit the type of the field. -/
inductive Fault where
  | abort
  | overflow
  deriving DecidableEq, Repr

/-- The function `PrevTimestamp` once more, branch for branch, with the two
decrements computed on exact integers: a result outside the type of the field
ends the run with `Fault.overflow` instead of being reduced to the width of the
field as in `PrevTimestamp`. -/
def PrevTimestampChecked (ts : DBTimestamp) : Except Fault DBTimestamp :=
  if ts.logical > 0 then
    if int32_min ≤ ts.logical - 1 ∧ ts.logical - 1 ≤ int32_max then
      Except.ok { ts with logical := ts.logical - 1 }
    else
      Except.error Fault.overflow
  else if ts.wall_time == 0 then
    Except.error Fault.abort
  else
    if int64_min ≤ ts.wall_time - 1 ∧ ts.wall_time - 1 ≤ int64_max then
      Except.ok { wall_time := ts.wall_time - 1, logical := int32_max }
    else
      Except.error Fault.overflow

/-! ## Auxiliary facts -/

/-- On the range of `int32_t` the reduction `wrapInt32` is the identity. -/
theorem wrapInt32_of_range (x : Int) (h₁ : -2147483648 ≤ x) (h₂ : x ≤ 2147483647) :
    wrapInt32 x = x := by
  unfold wrapInt32
  omega

/-- On the range of `int64_t` the reduction `wrapInt64` is the identity. -/
theorem wrapInt64_of_range (x : Int) (h₁ : -9223372036854775808 ≤ x)
    (h₂ : x ≤ 9223372036854775807) : wrapInt64 x = x := by
  unfold wrapInt64
  omega

/-- Unfolding of `operator<` into a proposition on the fields. -/
theorem operator_lt_iff (a b : DBTimestamp) :
    operator_lt a b = true ↔
      a.wall_time < b.wall_time ∨ (a.wall_time = b.wall_time ∧ a.logical < b.logical) := by
  simp [operator_lt]

/-- Unfolding of `operator==` into a proposition on the fields. -/
theorem operator_eq_iff (a b : DBTimestamp) :
    operator_eq a b = true ↔ a.wall_time = b.wall_time ∧ a.logical = b.logical := by
  simp [operator_eq]

/-- Unfolding of `operator<=` into a proposition on the fields. -/
theorem operator_le_iff (a b : DBTimestamp) :
    operator_le a b = true ↔
      ¬ (b.wall_time < a.wall_time ∨ (b.wall_time = a.wall_time ∧ b.logical < a.logical)) := by
  rw [← operator_lt_iff]
  simp [operator_le]

/-- A timestamp differs from `(0, 0)` exactly when one of its fields is not zero. -/
theorem ne_zero_iff (ts : DBTimestamp) :
    ts ≠ { wall_time := 0, logical := 0 } ↔ ts.wall_time ≠ 0 ∨ ts.logical ≠ 0 := by
  cases ts with
  | mk w l =>
    simp only [ne_eq, DBTimestamp.mk.injEq]
    tauto

/-- The simple-decrement branch of `PrevTimestamp`, on the range of `int32_t`. -/
theorem PrevTimestamp_of_pos (ts : DBTimestamp) (hr : ts.InRange) (hl : 0 < ts.logical) :
    PrevTimestamp ts = some { wall_time := ts.wall_time, logical := ts.logical - 1 } := by
  obtain ⟨_, _, h3, h4⟩ := hr
  simp only [int32_min, int32_max] at h3 h4
  have hw : wrapInt32 (ts.logical - 1) = ts.logical - 1 :=
    wrapInt32_of_range _ (by omega) (by omega)
  simp [PrevTimestamp, hl, hw]

/-- The borrow branch of `PrevTimestamp`, for a positive `wall_time` in the range
of `int64_t`. -/
theorem PrevTimestamp_of_borrow (ts : DBTimestamp) (hr : ts.InRange) (hl : ts.logical ≤ 0)
    (hw : 0 < ts.wall_time) :
    PrevTimestamp ts = some { wall_time := ts.wall_time - 1, logical := 2147483647 } := by
  obtain ⟨h1, h2, _, _⟩ := hr
  simp only [int64_min, int64_max] at h1 h2
  have hx : wrapInt64 (ts.wall_time - 1) = ts.wall_time - 1 :=
    wrapInt64_of_range _ (by omega) (by omega)
  have hn : ¬ (ts.logical > 0) := by omega
  have hz : ts.wall_time ≠ 0 := by omega
  simp [PrevTimestamp, hn, hz, hx, int32_max]

/-- The two returning branches of `PrevTimestamp` on a timestamp with non-negative
fields other than `(0, 0)`: either `logical` is positive and is decremented, or
`logical` is zero, `wall_time` is positive, and the result borrows from
`wall_time`. -/
theorem PrevTimestamp_cases (ts : DBTimestamp) (hr : ts.InRange) (hw : 0 ≤ ts.wall_time)
    (hl : 0 ≤ ts.logical) (hz : ts ≠ { wall_time := 0, logical := 0 }) :
    (0 < ts.logical ∧
        PrevTimestamp ts = some { wall_time := ts.wall_time, logical := ts.logical - 1 }) ∨
      (ts.logical = 0 ∧ 0 < ts.wall_time ∧
        PrevTimestamp ts = some { wall_time := ts.wall_time - 1, logical := 2147483647 }) := by
  rw [ne_zero_iff] at hz
  by_cases hp : 0 < ts.logical
  · exact Or.inl ⟨hp, PrevTimestamp_of_pos ts hr hp⟩
  · have h0 : ts.logical = 0 := by omega
    have hwp : 0 < ts.wall_time := by omega
    exact Or.inr ⟨h0, hwp, PrevTimestamp_of_borrow ts hr (by omega) hwp⟩

/-! ## The order -/

/-- C1: `operator<` is the lexicographic order on `(wall_time, logical)` with
`wall_time` dominating: `operator<(a, b)` is true if and only if
`a.wall_time < b.wall_time`, or `a.wall_time == b.wall_time` and
`a.logical < b.logical`. It holds for all integer field values, in particular
for every signed 64-bit `wall_time` and every signed 32-bit `logical`. -/
theorem operator_lt_lexicographic (a b : DBTimestamp) :
    operator_lt a b = true ↔
      (a.wall_time < b.wall_time ∨
        (a.wall_time = b.wall_time ∧ a.logical < b.logical)) := by
  simp [operator_lt]

/-- C2: trichotomy. For every pair of timestamps exactly one of `operator<(a, b)`,
`operator==(a, b)`, `operator>(a, b)` is true: at least one holds and no two
hold together. -/
theorem operator_trichotomy (a b : DBTimestamp) :
    (operator_lt a b = true ∨ operator_eq a b = true ∨ operator_gt a b = true) ∧
      ¬ (operator_lt a b = true ∧ operator_eq a b = true) ∧
      ¬ (operator_lt a b = true ∧ operator_gt a b = true) ∧
      ¬ (operator_eq a b = true ∧ operator_gt a b = true) := by
  unfold operator_gt
  rw [operator_lt_iff, operator_lt_iff, operator_eq_iff]
  omega

/-- C3: transitivity. If `operator<(a, b)` and `operator<(b, c)` are true then
`operator<(a, c)` is true. -/
theorem operator_lt_trans (a b c : DBTimestamp)
    (hab : operator_lt a b = true) (hbc : operator_lt b c = true) :
    operator_lt a c = true := by
  rw [operator_lt_iff] at hab hbc ⊢
  omega

/-- Instance of C3 at `(1, 7) < (2, 0) < (2, 3)`. -/
theorem operator_lt_trans_witness :
    operator_lt ⟨1, 7⟩ ⟨2, 0⟩ = true ∧ operator_lt ⟨2, 0⟩ ⟨2, 3⟩ = true ∧
      operator_lt ⟨1, 7⟩ ⟨2, 3⟩ = true :=
  ⟨by decide, by decide,
    operator_lt_trans ⟨1, 7⟩ ⟨2, 0⟩ ⟨2, 3⟩ (by decide) (by decide)⟩

/-! ## The predecessor -/

/-- C4: the predecessor is strictly smaller. For every timestamp `ts` with
`wall_time >= 0` and `logical >= 0` other than `(0, 0)`, `PrevTimestamp(ts)`
returns a value `p` and `operator<(p, ts)` is true. -/
theorem PrevTimestamp_lt (ts : DBTimestamp) (hr : ts.InRange) (hw : 0 ≤ ts.wall_time)
    (hl : 0 ≤ ts.logical) (hz : ts ≠ { wall_time := 0, logical := 0 }) :
    ∃ p, PrevTimestamp ts = some p ∧ operator_lt p ts = true := by
  rcases PrevTimestamp_cases ts hr hw hl hz with ⟨hp, h⟩ | ⟨h0, hwp, h⟩
  · refine ⟨_, h, ?_⟩
    rw [operator_lt_iff]
    dsimp only
    omega
  · refine ⟨_, h, ?_⟩
    rw [operator_lt_iff]
    dsimp only
    omega

/-- Instance of C4 at `(100, 0)`, the borrow branch. -/
theorem PrevTimestamp_lt_witness :
    ∃ p, PrevTimestamp ⟨100, 0⟩ = some p ∧ operator_lt p ⟨100, 0⟩ = true :=
  PrevTimestamp_lt ⟨100, 0⟩ (by decide) (by decide) (by decide) (by decide)

/-- C5: the predecessor is immediate. For every timestamp `ts` with
`wall_time >= 0` and `logical >= 0` other than `(0, 0)`, `PrevTimestamp(ts)`
returns a value `p` such that no timestamp `x` with `wall_time >= 0` and
`0 <= logical <= 2^31 - 1` satisfies `p < x` and `x < ts`; `p` is itself such a
valid timestamp, is strictly less than `ts`, and every valid timestamp strictly
less than `ts` is `<= p`, so that `p` is the greatest valid timestamp strictly
less than `ts`. -/
theorem PrevTimestamp_immediate (ts : DBTimestamp) (hr : ts.InRange) (hw : 0 ≤ ts.wall_time)
    (hl : 0 ≤ ts.logical) (hz : ts ≠ { wall_time := 0, logical := 0 }) :
    ∃ p, PrevTimestamp ts = some p ∧
      (¬ ∃ x : DBTimestamp, 0 ≤ x.wall_time ∧ 0 ≤ x.logical ∧ x.logical ≤ 2 ^ 31 - 1 ∧
          operator_lt p x = true ∧ operator_lt x ts = true) ∧
      (0 ≤ p.wall_time ∧ 0 ≤ p.logical ∧ p.logical ≤ 2 ^ 31 - 1 ∧
          operator_lt p ts = true) ∧
      (∀ x : DBTimestamp, 0 ≤ x.wall_time → 0 ≤ x.logical → x.logical ≤ 2 ^ 31 - 1 →
          operator_lt x ts = true → operator_le x p = true) := by
  have hr2 := hr
  obtain ⟨_, _, _, h4⟩ := hr2
  simp only [int32_max] at h4
  rcases PrevTimestamp_cases ts hr hw hl hz with ⟨hp, h⟩ | ⟨h0, hwp, h⟩
  · refine ⟨_, h, ?_, ?_, ?_⟩
    · rintro ⟨x, _, _, hx3, hpx, hxt⟩
      rw [operator_lt_iff] at hpx hxt
      dsimp only at hpx
      omega
    · rw [operator_lt_iff]
      dsimp only
      norm_num
      omega
    · intro x _ _ hx3 hxt
      rw [operator_lt_iff] at hxt
      rw [operator_le_iff]
      dsimp only
      omega
  · refine ⟨_, h, ?_, ?_, ?_⟩
    · rintro ⟨x, _, hx2, hx3, hpx, hxt⟩
      rw [operator_lt_iff] at hpx hxt
      dsimp only at hpx
      norm_num at hx3
      omega
    · rw [operator_lt_iff]
      dsimp only
      norm_num
      omega
    · intro x _ hx2 hx3 hxt
      rw [operator_lt_iff] at hxt
      rw [operator_le_iff]
      dsimp only
      norm_num at hx3
      omega

/-- Instance of C5 at `(7, 0)`, whose predecessor is `(6, 2^31 - 1)`. -/
theorem PrevTimestamp_immediate_witness :
    ∃ p, PrevTimestamp ⟨7, 0⟩ = some p ∧
      (¬ ∃ x : DBTimestamp, 0 ≤ x.wall_time ∧ 0 ≤ x.logical ∧ x.logical ≤ 2 ^ 31 - 1 ∧
          operator_lt p x = true ∧ operator_lt x ⟨7, 0⟩ = true) ∧
      (0 ≤ p.wall_time ∧ 0 ≤ p.logical ∧ p.logical ≤ 2 ^ 31 - 1 ∧
          operator_lt p ⟨7, 0⟩ = true) ∧
      (∀ x : DBTimestamp, 0 ≤ x.wall_time → 0 ≤ x.logical → x.logical ≤ 2 ^ 31 - 1 →
          operator_lt x ⟨7, 0⟩ = true → operator_le x p = true) :=
  PrevTimestamp_immediate ⟨7, 0⟩ (by decide) (by decide) (by decide) (by decide)

/-- C6: an exclusive bound as an inclusive bound. For every timestamp `ts` with
non-negative components other than `(0, 0)`, `PrevTimestamp(ts)` returns a value
`p`, and for every timestamp `x` with non-negative components `operator<(x, ts)`
is true if and only if `operator<=(x, p)` is true. -/
theorem lt_iff_le_PrevTimestamp (ts x : DBTimestamp) (hr : ts.InRange)
    (hw : 0 ≤ ts.wall_time) (hl : 0 ≤ ts.logical)
    (hz : ts ≠ { wall_time := 0, logical := 0 })
    (hxr : x.InRange) (_hxw : 0 ≤ x.wall_time) (hxl : 0 ≤ x.logical) :
    ∃ p, PrevTimestamp ts = some p ∧
      (operator_lt x ts = true ↔ operator_le x p = true) := by
  obtain ⟨_, _, _, hx4⟩ := hxr
  simp only [int32_max] at hx4
  rcases PrevTimestamp_cases ts hr hw hl hz with ⟨hp, h⟩ | ⟨h0, hwp, h⟩
  · refine ⟨_, h, ?_⟩
    rw [operator_lt_iff, operator_le_iff]
    dsimp only
    omega
  · refine ⟨_, h, ?_⟩
    rw [operator_lt_iff, operator_le_iff]
    dsimp only
    omega

/-- Instance of C6 at the bound `(3, 0)` and the version `(2, 2^31 - 1)`. -/
theorem lt_iff_le_PrevTimestamp_witness :
    ∃ p, PrevTimestamp ⟨3, 0⟩ = some p ∧
      (operator_lt ⟨2, 2147483647⟩ ⟨3, 0⟩ = true ↔ operator_le ⟨2, 2147483647⟩ p = true) :=
  lt_iff_le_PrevTimestamp ⟨3, 0⟩ ⟨2, 2147483647⟩ (by decide) (by decide) (by decide)
    (by decide) (by decide) (by decide) (by decide)

/-- C7: simple decrement. For every timestamp `ts` with `logical > 0`, whatever
its `wall_time` (zero and negative values included), `PrevTimestamp(ts)` returns
`(ts.wall_time, ts.logical - 1)`, with `wall_time` unchanged. -/
theorem PrevTimestamp_decrement (ts : DBTimestamp) (hr : ts.InRange) (hl : 0 < ts.logical) :
    PrevTimestamp ts = some { wall_time := ts.wall_time, logical := ts.logical - 1 } :=
  PrevTimestamp_of_pos ts hr hl

/-- Instance of C7: `PrevTimestamp((100, 5)) == (100, 4)`. -/
theorem PrevTimestamp_decrement_witness :
    DBTimestamp.InRange ⟨100, 5⟩ ∧ PrevTimestamp ⟨100, 5⟩ = some ⟨100, 4⟩ :=
  ⟨by decide, PrevTimestamp_decrement ⟨100, 5⟩ (by decide) (by decide)⟩

/-- C8: borrow. For every timestamp `ts` with `logical == 0` and `wall_time > 0`,
`PrevTimestamp(ts)` returns `(ts.wall_time - 1, 2^31 - 1)`, where `2^31 - 1` is
the largest value of the 32-bit signed `logical`,
`std::numeric_limits<int32_t>::max()`. -/
theorem PrevTimestamp_borrow (ts : DBTimestamp) (hr : ts.InRange) (hl : ts.logical = 0)
    (hw : 0 < ts.wall_time) :
    PrevTimestamp ts = some { wall_time := ts.wall_time - 1, logical := 2 ^ 31 - 1 } ∧
      int32_max = 2 ^ 31 - 1 := by
  refine ⟨?_, by norm_num [int32_max]⟩
  rw [PrevTimestamp_of_borrow ts hr (by omega) hw]
  norm_num

/-- Instance of C8: `PrevTimestamp((100, 0)) == (99, 2147483647)`. -/
theorem PrevTimestamp_borrow_witness :
    DBTimestamp.InRange ⟨100, 0⟩ ∧ PrevTimestamp ⟨100, 0⟩ = some ⟨99, 2147483647⟩ :=
  ⟨by decide, (PrevTimestamp_borrow ⟨100, 0⟩ (by decide) (by decide) (by decide)).1⟩

/-- C9: the predecessor of zero is fatal. `PrevTimestamp` applied to the zero
timestamp `(0, 0)`, the value of `kZeroTimestamp`, takes the abort branch: the
result is `none`, and it is no timestamp. -/
theorem PrevTimestamp_zero_aborts :
    kZeroTimestamp = { wall_time := 0, logical := 0 } ∧
      PrevTimestamp { wall_time := 0, logical := 0 } = none ∧
      ∀ p, PrevTimestamp { wall_time := 0, logical := 0 } ≠ some p := by
  refine ⟨rfl, by decide, ?_⟩
  intro p hp
  have h : PrevTimestamp { wall_time := 0, logical := 0 } = none := by decide
  rw [h] at hp
  exact Option.noConfusion hp

/-- C10, as stated, fails: `(0, -1)` has a signed 32-bit `logical`, is not the
zero timestamp, and `PrevTimestamp` aborts on it. -/
theorem PrevTimestamp_aborts_on_nonzero :
    DBTimestamp.InRange ⟨0, -1⟩ ∧ PrevTimestamp ⟨0, -1⟩ = none ∧
      (⟨0, -1⟩ : DBTimestamp) ≠ ⟨0, 0⟩ :=
  ⟨by decide, by decide, by decide⟩

/-- C10, amended: for every timestamp `ts`, if `PrevTimestamp(ts)` aborts then
`ts.wall_time == 0` and `ts.logical <= 0`, so that among the timestamps with
`logical >= 0` only `(0, 0)` aborts; equivalently `PrevTimestamp` returns a value
for every `ts` with `wall_time != 0` or `logical > 0`. -/
theorem PrevTimestamp_abort_only (ts : DBTimestamp) :
    (PrevTimestamp ts = none →
        ts.wall_time = 0 ∧ ts.logical ≤ 0 ∧
          (0 ≤ ts.logical → ts = { wall_time := 0, logical := 0 })) ∧
      ((ts.wall_time ≠ 0 ∨ 0 < ts.logical) → ∃ p, PrevTimestamp ts = some p) := by
  cases ts with
  | mk w l =>
    by_cases hl : l > 0
    · simp [PrevTimestamp, hl]
    · by_cases hw : w = 0
      · subst hw
        simp only [PrevTimestamp, hl]
        simp
        constructor
        · omega
        · omega
      · simp [PrevTimestamp, hl, hw]

/-- Instance of C10, amended, at the aborting input `(0, 0)` and at the returning
input `(0, 1)`. -/
theorem PrevTimestamp_abort_only_witness :
    (PrevTimestamp ⟨0, 0⟩ = none ∧ (0 : Int) = 0 ∧ (0 : Int) ≤ 0) ∧
      ∃ p, PrevTimestamp ⟨0, 1⟩ = some p :=
  ⟨⟨by decide, ((PrevTimestamp_abort_only ⟨0, 0⟩).1 (by decide)).1,
      ((PrevTimestamp_abort_only ⟨0, 0⟩).1 (by decide)).2.1⟩,
    (PrevTimestamp_abort_only ⟨0, 1⟩).2 (Or.inr (by decide))⟩

/-! ## Derived relations, equality and the zero timestamp -/

/-- C11: consistency of the derived relations. For every pair of timestamps,
`operator>(a, b)` equals `operator<(b, a)`, `operator<=(a, b)` equals the
negation of `operator<(b, a)`, and `operator>=(a, b)` equals the negation of
`operator<(a, b)`. -/
theorem operator_derived_consistent (a b : DBTimestamp) :
    operator_gt a b = operator_lt b a ∧
      operator_le a b = !(operator_lt b a) ∧
      operator_ge a b = !(operator_lt a b) :=
  ⟨rfl, rfl, rfl⟩

/-- C12: equality is component-wise. For every pair of timestamps,
`operator==(a, b)` is true if and only if `a.wall_time == b.wall_time` and
`a.logical == b.logical`, that is if and only if `a` and `b` are the same value,
and `operator!=(a, b)` is the negation of `operator==(a, b)`. -/
theorem operator_eq_componentwise (a b : DBTimestamp) :
    (operator_eq a b = true ↔ a.wall_time = b.wall_time ∧ a.logical = b.logical) ∧
      (operator_eq a b = true ↔ a = b) ∧
      operator_ne a b = !(operator_eq a b) := by
  refine ⟨operator_eq_iff a b, ?_, rfl⟩
  rw [operator_eq_iff]
  cases a
  cases b
  simp

/-- C13: antisymmetry. For every pair of timestamps, if `operator<=(a, b)` and
`operator<=(b, a)` are both true then `operator==(a, b)` is true; and
`operator<` is asymmetric: `a < b` and `b < a` never hold together. -/
theorem operator_le_antisymm (a b : DBTimestamp) :
    (operator_le a b = true → operator_le b a = true → operator_eq a b = true) ∧
      ¬ (operator_lt a b = true ∧ operator_lt b a = true) := by
  rw [operator_le_iff, operator_le_iff, operator_eq_iff, operator_lt_iff, operator_lt_iff]
  omega

/-- Instance of C13 at `a = b = (3, 4)`. -/
theorem operator_le_antisymm_witness :
    operator_le ⟨3, 4⟩ ⟨3, 4⟩ = true ∧ operator_eq ⟨3, 4⟩ ⟨3, 4⟩ = true :=
  ⟨by decide, (operator_le_antisymm ⟨3, 4⟩ ⟨3, 4⟩).1 (by decide) (by decide)⟩

/-- C14, as stated, fails: `(-1, 1)` has `logical > 0`, yet
`operator<(kZeroTimestamp, (-1, 1))` is false; `(-1, 1)` is itself strictly
less than `kZeroTimestamp`, which therefore is not the minimum of the order on
all field values. -/
theorem kZeroTimestamp_not_below_negative_wall_time :
    DBTimestamp.InRange ⟨-1, 1⟩ ∧
      (0 < (⟨-1, 1⟩ : DBTimestamp).wall_time ∨ 0 < (⟨-1, 1⟩ : DBTimestamp).logical) ∧
      operator_lt kZeroTimestamp ⟨-1, 1⟩ = false ∧
      operator_lt ⟨-1, 1⟩ kZeroTimestamp = true :=
  ⟨by decide, by decide, by decide, by decide⟩

/-- C14, amended: `kZeroTimestamp` equals `(0, 0)`; for every timestamp `t` with
`wall_time >= 0` and (`wall_time > 0` or `logical > 0`),
`operator<(kZeroTimestamp, t)` is true; and `(0, 0)` is the unique minimum of the
order among the timestamps with non-negative components: it is `<=` each of
them, and a timestamp with non-negative components that is `<=` each of them is
`(0, 0)`. -/
theorem kZeroTimestamp_minimum :
    kZeroTimestamp = { wall_time := 0, logical := 0 } ∧
      (∀ t : DBTimestamp, 0 ≤ t.wall_time → (0 < t.wall_time ∨ 0 < t.logical) →
        operator_lt kZeroTimestamp t = true) ∧
      (∀ t : DBTimestamp, 0 ≤ t.wall_time → 0 ≤ t.logical →
        operator_le kZeroTimestamp t = true) ∧
      (∀ m : DBTimestamp, 0 ≤ m.wall_time → 0 ≤ m.logical →
        (∀ t : DBTimestamp, 0 ≤ t.wall_time → 0 ≤ t.logical → operator_le m t = true) →
        m = kZeroTimestamp) := by
  refine ⟨rfl, ?_, ?_, ?_⟩
  · intro t hw h
    rw [operator_lt_iff]
    simp only [kZeroTimestamp]
    omega
  · intro t hw hl
    rw [operator_le_iff]
    simp only [kZeroTimestamp]
    omega
  · intro m hw hl hm
    have h := hm kZeroTimestamp (by decide) (by decide)
    rw [operator_le_iff] at h
    simp only [kZeroTimestamp] at h
    cases m with
    | mk w l =>
      simp only [kZeroTimestamp, DBTimestamp.mk.injEq]
      dsimp only at h hw hl
      omega

/-- Instance of C14, amended, at `(0, 1)` and at `(5, 0)`. -/
theorem kZeroTimestamp_minimum_witness :
    operator_lt kZeroTimestamp ⟨0, 1⟩ = true ∧ operator_lt kZeroTimestamp ⟨5, 0⟩ = true :=
  ⟨kZeroTimestamp_minimum.2.1 ⟨0, 1⟩ (by decide) (Or.inr (by decide)),
    kZeroTimestamp_minimum.2.1 ⟨5, 0⟩ (by decide) (Or.inl (by decide))⟩

/-! ## Conversion -/

/-- C15: conversion fidelity. For every external legacy timestamp with
`wall_time = W` and `logical = L`, whatever the integers `W` and `L`,
`ToDBTimestamp` returns the timestamp `(W, L)`: the fields are copied without
validation, clamping or any other change, and the function has no failing
result. -/
theorem ToDBTimestamp_fidelity (W L : Int) :
    ToDBTimestamp { wall_time := W, logical := L } = { wall_time := W, logical := L } ∧
      (ToDBTimestamp { wall_time := W, logical := L }).wall_time = W ∧
      (ToDBTimestamp { wall_time := W, logical := L }).logical = L :=
  ⟨rfl, rfl, rfl⟩

/-! ## Further properties of the predecessor -/

/-- C16: the predecessor is subtraction of one in mixed radix. With the value of
a timestamp `t` taken as `t.wall_time * 2^31 + t.logical`, for every timestamp
`ts` with `wall_time >= 0` and `0 <= logical <= 2^31 - 1` other than `(0, 0)`,
`PrevTimestamp(ts)` returns a timestamp `p` whose value is the value of `ts`
minus one, as exact integers. -/
theorem PrevTimestamp_mixed_radix (ts : DBTimestamp) (hr : ts.InRange)
    (hw : 0 ≤ ts.wall_time) (hl : 0 ≤ ts.logical)
    (hz : ts ≠ { wall_time := 0, logical := 0 }) :
    ∃ p, PrevTimestamp ts = some p ∧
      p.wall_time * 2 ^ 31 + p.logical = ts.wall_time * 2 ^ 31 + ts.logical - 1 := by
  rcases PrevTimestamp_cases ts hr hw hl hz with ⟨hp, h⟩ | ⟨h0, hwp, h⟩
  · refine ⟨_, h, ?_⟩
    dsimp only
    omega
  · refine ⟨_, h, ?_⟩
    dsimp only
    norm_num
    omega

/-- Instance of C16 at `(100, 0)`: the value of `(99, 2^31 - 1)` is the value of
`(100, 0)` minus one. -/
theorem PrevTimestamp_mixed_radix_witness :
    ∃ p, PrevTimestamp ⟨100, 0⟩ = some p ∧
      p.wall_time * 2 ^ 31 + p.logical = 100 * 2 ^ 31 + 0 - 1 :=
  PrevTimestamp_mixed_radix ⟨100, 0⟩ (by decide) (by decide) (by decide) (by decide)

/-- C17: the exact abort condition. For every timestamp `ts`,
`PrevTimestamp(ts)` aborts if and only if `ts.wall_time == 0` and
`ts.logical <= 0`; in particular it aborts on `(0, L)` for every negative `L`. -/
theorem PrevTimestamp_abort_iff (ts : DBTimestamp) :
    (PrevTimestamp ts = none ↔ ts.wall_time = 0 ∧ ts.logical ≤ 0) ∧
      ∀ L : Int, L < 0 → PrevTimestamp { wall_time := 0, logical := L } = none := by
  constructor
  · by_cases hl : ts.logical > 0
    · have hn : ¬ ts.logical ≤ 0 := by omega
      simp [PrevTimestamp, hl, hn]
    · have hn : ts.logical ≤ 0 := by omega
      by_cases hw : ts.wall_time = 0
      · simp [PrevTimestamp, hl, hw, hn]
      · simp [PrevTimestamp, hl, hw]
  · intro L hL
    have hn : ¬ L > 0 := by omega
    simp [PrevTimestamp, hn]

/-- Instance of C17 at `(0, -5)`. -/
theorem PrevTimestamp_abort_iff_witness :
    PrevTimestamp ⟨0, -5⟩ = none ∧
      (PrevTimestamp ⟨7, -5⟩ = none ↔ (7 : Int) = 0 ∧ (-5 : Int) ≤ 0) :=
  ⟨(PrevTimestamp_abort_iff ⟨0, 0⟩).2 (-5) (by decide), (PrevTimestamp_abort_iff ⟨7, -5⟩).1⟩

/-- C18: the predecessor keeps timestamps valid and never overflows. For every
timestamp `ts` with `wall_time >= 0` and `0 <= logical <= 2^31 - 1` other than
`(0, 0)`, `PrevTimestamp(ts)` returns a timestamp `p` with `wall_time >= 0` and
`0 <= logical <= 2^31 - 1`, whose fields fit their machine types; the run with
exact decrements, `PrevTimestampChecked`, returns the same `p` and so meets no
overflow: `ts.logical - 1` fits an `int32_t` when `--ts.logical` runs, and
`ts.wall_time - 1` fits an `int64_t` when `--ts.wall_time` runs. -/
theorem PrevTimestamp_valid (ts : DBTimestamp) (hr : ts.InRange)
    (hw : 0 ≤ ts.wall_time) (hl : 0 ≤ ts.logical)
    (hz : ts ≠ { wall_time := 0, logical := 0 }) :
    ∃ p, PrevTimestamp ts = some p ∧ PrevTimestampChecked ts = Except.ok p ∧
      (0 ≤ p.wall_time ∧ 0 ≤ p.logical ∧ p.logical ≤ 2 ^ 31 - 1 ∧ p.InRange) ∧
      (0 < ts.logical → int32_min ≤ ts.logical - 1 ∧ ts.logical - 1 ≤ int32_max) ∧
      (¬ 0 < ts.logical →
        int64_min ≤ ts.wall_time - 1 ∧ ts.wall_time - 1 ≤ int64_max) := by
  have hr2 := hr
  obtain ⟨h1, h2, h3, h4⟩ := hr2
  simp only [int64_min, int64_max, int32_min, int32_max] at h1 h2 h3 h4
  rcases PrevTimestamp_cases ts hr hw hl hz with ⟨hp, h⟩ | ⟨h0, hwp, h⟩
  · have hb : -2147483648 ≤ ts.logical - 1 ∧ ts.logical - 1 ≤ 2147483647 := by omega
    refine ⟨_, h, ?_, ⟨?_, ?_, ?_, ?_⟩, ?_, ?_⟩
    · simp [PrevTimestampChecked, hp, int32_min, int32_max, hb]
    · exact hw
    · dsimp only
      omega
    · dsimp only
      norm_num
      omega
    · simp only [DBTimestamp.InRange, int64_min, int64_max, int32_min, int32_max]
      omega
    · intro _
      simp only [int32_min, int32_max]
      omega
    · intro hn
      exact absurd hp hn
  · have hb : -9223372036854775808 ≤ ts.wall_time - 1 ∧
        ts.wall_time - 1 ≤ 9223372036854775807 := by omega
    have hn : ¬ ts.logical > 0 := by omega
    have hne : ts.wall_time ≠ 0 := by omega
    refine ⟨_, h, ?_, ⟨?_, ?_, ?_, ?_⟩, ?_, ?_⟩
    · simp [PrevTimestampChecked, hn, hne, int64_min, int64_max, int32_max, hb]
    · dsimp only
      omega
    · dsimp only
      omega
    · dsimp only
      norm_num
    · simp only [DBTimestamp.InRange, int64_min, int64_max, int32_min, int32_max]
      omega
    · intro hp
      omega
    · intro _
      simp only [int64_min, int64_max]
      omega

/-- Instance of C18 at `(1, 0)`, whose predecessor is `(0, 2^31 - 1)`. -/
theorem PrevTimestamp_valid_witness :
    ∃ p, PrevTimestamp ⟨1, 0⟩ = some p ∧ PrevTimestampChecked ⟨1, 0⟩ = Except.ok p ∧
      (0 ≤ p.wall_time ∧ 0 ≤ p.logical ∧ p.logical ≤ 2 ^ 31 - 1 ∧ p.InRange) :=
  let ⟨p, h1, h2, h3, _⟩ :=
    PrevTimestamp_valid ⟨1, 0⟩ (by decide) (by decide) (by decide) (by decide)
  ⟨p, h1, h2, h3⟩

/-- C19: the predecessor is strictly monotone, hence injective. For all
timestamps `a` and `b` with `wall_time >= 0` and `0 <= logical <= 2^31 - 1`,
both different from `(0, 0)`, `PrevTimestamp` returns a value on each; if
`operator<(a, b)` is true then `operator<(PrevTimestamp(a), PrevTimestamp(b))`
is true, and equal results come from equal arguments. -/
theorem PrevTimestamp_strict_mono (a b : DBTimestamp)
    (hra : a.InRange) (haw : 0 ≤ a.wall_time) (hal : 0 ≤ a.logical)
    (haz : a ≠ { wall_time := 0, logical := 0 })
    (hrb : b.InRange) (hbw : 0 ≤ b.wall_time) (hbl : 0 ≤ b.logical)
    (hbz : b ≠ { wall_time := 0, logical := 0 }) :
    ∃ pa pb, PrevTimestamp a = some pa ∧ PrevTimestamp b = some pb ∧
      (operator_lt a b = true → operator_lt pa pb = true) ∧
      (pa = pb → a = b) := by
  have ha4 : a.logical ≤ 2147483647 := hra.2.2.2
  have hb4 : b.logical ≤ 2147483647 := hrb.2.2.2
  have hinj : a.wall_time = b.wall_time → a.logical = b.logical → a = b := by
    intro h1 h2
    cases a
    cases b
    simp only [DBTimestamp.mk.injEq]
    exact ⟨h1, h2⟩
  rcases PrevTimestamp_cases a hra haw hal haz with ⟨hap, ha⟩ | ⟨ha0, hawp, ha⟩ <;>
    rcases PrevTimestamp_cases b hrb hbw hbl hbz with ⟨hbp, hb⟩ | ⟨hb0, hbwp, hb⟩
  · refine ⟨_, _, ha, hb, ?_, ?_⟩
    · rw [operator_lt_iff, operator_lt_iff]
      dsimp only
      omega
    · intro h
      simp only [DBTimestamp.mk.injEq] at h
      exact hinj h.1 (by omega)
  · refine ⟨_, _, ha, hb, ?_, ?_⟩
    · rw [operator_lt_iff, operator_lt_iff]
      dsimp only
      omega
    · intro h
      simp only [DBTimestamp.mk.injEq] at h
      omega
  · refine ⟨_, _, ha, hb, ?_, ?_⟩
    · rw [operator_lt_iff, operator_lt_iff]
      dsimp only
      omega
    · intro h
      simp only [DBTimestamp.mk.injEq] at h
      omega
  · refine ⟨_, _, ha, hb, ?_, ?_⟩
    · rw [operator_lt_iff, operator_lt_iff]
      dsimp only
      omega
    · intro h
      simp only [DBTimestamp.mk.injEq] at h
      exact hinj (by omega) (by omega)

/-- Instance of C19 at `(3, 5) < (4, 0)`, one argument in each returning branch. -/
theorem PrevTimestamp_strict_mono_witness :
    operator_lt ⟨3, 5⟩ ⟨4, 0⟩ = true ∧
      ∃ pa pb, PrevTimestamp ⟨3, 5⟩ = some pa ∧ PrevTimestamp ⟨4, 0⟩ = some pb ∧
        operator_lt pa pb = true :=
  let ⟨pa, pb, h1, h2, h3, _⟩ :=
    PrevTimestamp_strict_mono ⟨3, 5⟩ ⟨4, 0⟩ (by decide) (by decide) (by decide) (by decide)
      (by decide) (by decide) (by decide) (by decide)
  ⟨by decide, pa, pb, h1, h2, h3 (by decide)⟩

end cockroach
